import Mathlib

/-!
# Traffic cone detection: the hull classifier of `Main.cpp`

A shallow embedding of the decision logic of `Main.cpp`:

* `isTrafficCone` (lines 146-188), the two-stage classifier of a convex hull,
* `drawGreenDotAtConeCenter` (lines 191-202), the centroid marker,
* the count report of `main` (lines 57-64).

C++ `int` values are integers kept in the 32-bit two's-complement range by `wrapInt`;
a `std::vector<cv::Point>` is a `List Point`.  A read of element 0 of an empty vector is the
one fault of the embedding: `isTrafficCone` returns `none` there.  A `double` division by zero
is no fault: its value is an infinity or `NaN`, and the code that follows it still runs.
-/

namespace TrafficCone

/-! ## Data model -/

/-- The type `cv::Point`, a pixel position with `int` coordinates. -/
structure Point where
  x : Int
  y : Int
deriving DecidableEq

/-- The type `cv::Rect`: top-left corner, width and height, all `int`. -/
structure Rect where
  x : Int
  y : Int
  width : Int
  height : Int
deriving DecidableEq

/-- Smallest value of a C++ `int`. -/
def INT_MIN : Int := -2147483648

/-- Largest value of a C++ `int`. -/
def INT_MAX : Int := 2147483647

/-- The 32-bit two's-complement value of an integer: the result of `int` arithmetic whose exact
result is `n`. -/
def wrapInt (n : Int) : Int := (n + 2147483648) % 4294967296 - 2147483648

/-- An integer that a C++ `int` can hold. -/
def isInt (n : Int) : Prop := INT_MIN ≤ n ∧ n ≤ INT_MAX

instance (n : Int) : Decidable (isInt n) := by
  unfold isInt
  infer_instance

/-- A hull as the program can hold it: every coordinate of every point is an `int` value. -/
def validHull (hull : List Point) : Prop := ∀ p ∈ hull, isInt p.x ∧ isInt p.y

instance (hull : List Point) : Decidable (validHull hull) := by
  unfold validHull
  infer_instance

/-! ## Constants (lines 17-22) -/

/-- Line 17. -/
def MIN_PIXEL_WIDTH : Int := 10

/-- Line 18. -/
def MIN_PIXEL_HEIGHT : Int := 10

/-- Line 20: the `double` constant `0.8`. -/
def MAX_ASPECT_RATIO : ℚ := 8 / 10

/-- Line 22. -/
def MIN_PIXEL_AREA : Int := 80

/-! ## OpenCV routines used by the classifier -/

/-- Modelled from the spec: `cv::boundingRect` is an OpenCV routine, not code of this repository.
For a vector of integer points it returns the smallest upright rectangle holding them,
`x = min x`, `y = min y`, `width = max x - min x + 1`, `height = max y - min y + 1`, and the
empty rectangle `0x0` at the origin for an empty vector.  Width and height are `int` fields. -/
def boundingRect : List Point → Rect
  | [] => ⟨0, 0, 0, 0⟩
  | p :: ps =>
    let xmin := ps.foldl (fun m q => min m q.x) p.x
    let xmax := ps.foldl (fun m q => max m q.x) p.x
    let ymin := ps.foldl (fun m q => min m q.y) p.y
    let ymax := ps.foldl (fun m q => max m q.y) p.y
    ⟨xmin, ymin, wrapInt (xmax - xmin + 1), wrapInt (ymax - ymin + 1)⟩

/-- The method `cv::Rect::area()`: the `int` product `width * height`. -/
def Rect.area (r : Rect) : Int := wrapInt (r.width * r.height)

/-! ## `isTrafficCone` (lines 146-188) -/

/-- Line 152: `boundingRect.y + (int)((double)boundingRect.height / 2.0)`.  Halving an `int` in
`double` is exact and the cast truncates toward zero. -/
def yCenter (convexHull : List Point) : Int :=
  wrapInt ((boundingRect convexHull).y + Int.tdiv (boundingRect convexHull).height 2)

/-- Lines 151 and 155: `aspectRatio > MAX_ASPECT_RATIO` for
`aspectRatio = (double)width / (double)height`.  The operands are `int` values, converted
exactly, and the division is correctly rounded.  For a non-zero height the exact quotient is
either `4/5`, and then the rounded quotient is the `double` constant `0.8` itself, or it is at
least `1 / (5 * 2^31)` away from `4/5`, with other doubles in between, so that rounding keeps it
on its side of the constant: the comparison of the doubles is the comparison of the exact
quotients.  For a zero height the quotient is `+inf` (positive width), `-inf` or `NaN`, and only
`+inf` exceeds `0.8`. -/
def aspectRatioExceeds (width height : Int) : Bool :=
  if height = 0 then decide (0 < width)
  else decide ((width : ℚ) / (height : ℚ) > MAX_ASPECT_RATIO)

/-- Lines 149-157, Stage 1: the gross dimensional check.  `true` when the hull is rejected
there. -/
def failsGrossDimensionalCheck (convexHull : List Point) : Bool :=
  let rect := boundingRect convexHull
  let area := rect.area
  decide (area < MIN_PIXEL_AREA) || decide (rect.width < MIN_PIXEL_WIDTH)
    || decide (rect.height < MIN_PIXEL_HEIGHT) || aspectRatioExceeds rect.width rect.height

/-- Lines 162-167: the hull points with `y < yCenter`, in hull order. -/
def pointsAboveCenter (convexHull : List Point) (yc : Int) : List Point :=
  convexHull.filter (fun point => decide (point.y < yc))

/-- Lines 162-167: the other hull points (`y >= yCenter`), in hull order. -/
def pointsBelowCenter (convexHull : List Point) (yc : Int) : List Point :=
  convexHull.filter (fun point => !decide (point.y < yc))

/-- Lines 169-173: the scan for the least `x`, started at element 0 of the vector.  `none` is
the read of element 0 of an empty vector. -/
def leftMostPointBelowCenter : List Point → Option Int
  | [] => none
  | p0 :: rest =>
    some ((p0 :: rest).foldl (fun left point => if point.x < left then point.x else left) p0.x)

/-- Lines 175-179: the scan for the greatest `x`, started at element 0 of the vector. -/
def rightMostPointBelowCenter : List Point → Option Int
  | [] => none
  | p0 :: rest =>
    some ((p0 :: rest).foldl (fun right point => if point.x > right then point.x else right) p0.x)

/-- Lines 182-187: the loop over the points above the center; it returns `false` at the first
point that is not strictly between the two extremes, and `true` when it runs to the end. -/
def allAboveInside (left right : Int) : List Point → Bool
  | [] => true
  | pointAboveCenter :: rest =>
    if pointAboveCenter.x ≤ left ∨ pointAboveCenter.x ≥ right then false
    else allAboveInside left right rest

/-- Lines 159-187, Stage 2: the pointing-up check, for a given y center. -/
def isPointingUp (convexHull : List Point) (yc : Int) : Option Bool :=
  let vectorOfPointsAboveCenter := pointsAboveCenter convexHull yc
  let vectorOfPointsBelowCenter := pointsBelowCenter convexHull yc
  match leftMostPointBelowCenter vectorOfPointsBelowCenter,
      rightMostPointBelowCenter vectorOfPointsBelowCenter with
  | some left, some right => some (allAboveInside left right vectorOfPointsAboveCenter)
  | _, _ => none

/-- Lines 146-188: the classifier.  `some b` is the returned boolean, `none` the read of
`vectorOfPointsBelowCenter[0]` on an empty vector. -/
def isTrafficCone (convexHull : List Point) : Option Bool :=
  if failsGrossDimensionalCheck convexHull then some false
  else isPointingUp convexHull (yCenter convexHull)

/-- The hull moved by `dx` along the x axis. -/
def translateX (dx : Int) (hull : List Point) : List Point :=
  hull.map (fun p => ⟨p.x + dx, p.y⟩)

/-- All points of the hull lie on one straight line `a * x + b * y = c`. -/
def Collinear (hull : List Point) : Prop :=
  ∃ a b c : Int, (a ≠ 0 ∨ b ≠ 0) ∧ ∀ p ∈ hull, a * p.x + b * p.y = c

/-- The bounding box in the words of the specification: `x = min x`, `y = min y`,
`width = max x - min x + 1`, `height = max y - min y + 1` over the hull points, taken exactly,
and the `0x0` box at the origin for an empty hull. -/
def IsBoundingBox (hull : List Point) (r : Rect) : Prop :=
  (hull = [] ∧ r = ⟨0, 0, 0, 0⟩) ∨
  (hull ≠ [] ∧ IsLeast {v | ∃ q ∈ hull, q.x = v} r.x ∧ IsLeast {v | ∃ q ∈ hull, q.y = v} r.y ∧
    IsGreatest {v | ∃ q ∈ hull, q.x = v} (r.x + r.width - 1) ∧
    IsGreatest {v | ∃ q ∈ hull, q.y = v} (r.y + r.height - 1))

/-- The exact bounding box, computed: the box of `IsBoundingBox`. -/
def exactBoundingBox : List Point → Rect
  | [] => ⟨0, 0, 0, 0⟩
  | p :: ps =>
    let xmin := ps.foldl (fun m q => min m q.x) p.x
    let xmax := ps.foldl (fun m q => max m q.x) p.x
    let ymin := ps.foldl (fun m q => min m q.y) p.y
    let ymax := ps.foldl (fun m q => max m q.y) p.y
    ⟨xmin, ymin, xmax - xmin + 1, ymax - ymin + 1⟩

/-! ## `drawGreenDotAtConeCenter` (lines 191-202) -/

/-- The three fields of `cv::Moments` the program reads (`double` values). -/
structure Moments where
  m00 : ℚ
  m10 : ℚ
  m01 : ℚ

/-- The sums of Green's formula over the polygon edges `prev -> p`: twice the signed area and
the two first-order sums. -/
def greenSums : Point → List Point → Int × Int × Int → Int × Int × Int
  | _, [], acc => acc
  | prev, p :: rest, (a00, a10, a01) =>
    let dxy := prev.x * p.y - p.x * prev.y
    greenSums p rest (a00 + dxy, a10 + dxy * (prev.x + p.x), a01 + dxy * (prev.y + p.y))

/-- Modelled from the spec: `cv::moments` is an OpenCV routine, not code of this repository.
The spatial moments of the region enclosed by the closed polygon through the points, by Green's
formula in exact arithmetic: `m00` is the enclosed area and `m10 / m00`, `m01 / m00` the center
of mass; all three are zero for a sequence that encloses no area, the empty one included. -/
def contourMoments (contour : List Point) : Moments :=
  match contour.getLast? with
  | none => ⟨0, 0, 0⟩
  | some last =>
    let sums := greenSums last contour (0, 0, 0)
    if sums.1 = 0 then ⟨0, 0, 0⟩
    else if sums.1 > 0 then ⟨(sums.1 : ℚ) / 2, (sums.2.1 : ℚ) / 6, (sums.2.2 : ℚ) / 6⟩
    else ⟨-(sums.1 : ℚ) / 2, -(sums.2.1 : ℚ) / 6, -(sums.2.2 : ℚ) / 6⟩

/-- The value of a `double` expression: a finite number, an infinity, or `NaN`. -/
inductive DoubleValue where
  | finite (q : ℚ)
  | posInf
  | negInf
  | nan
deriving DecidableEq

/-- The two facts of the machine arithmetic that the source leaves open: `round`, the rounding
of an exact quotient to a `double`, and `indefinite`, the `int` that the cast `(int)` yields for
a `double` with no `int` value (undefined in C++; `INT_MIN` on x86). -/
structure DoubleArith where
  round : ℚ → ℚ
  indefinite : Int

/-- Lines 197-198: the `double` division `a / b` of two finite values.  With a zero
denominator nothing stops the division: the quotient is `NaN` for `0 / 0` and an infinity
with the sign of the numerator otherwise. -/
def divDouble (fp : DoubleArith) (a b : ℚ) : DoubleValue :=
  if b = 0 then
    if a = 0 then DoubleValue.nan
    else if 0 < a then DoubleValue.posInf
    else DoubleValue.negInf
  else DoubleValue.finite (fp.round (a / b))

/-- Lines 197-198: the cast `(int)` of a `double`: truncation toward zero when the truncated
value is an `int` value, and `indefinite` for every other finite value, the infinities and
`NaN`. -/
def castToInt (fp : DoubleArith) : DoubleValue → Int
  | DoubleValue.finite q =>
    if INT_MIN ≤ Int.tdiv q.num q.den ∧ Int.tdiv q.num q.den ≤ INT_MAX then Int.tdiv q.num q.den
    else fp.indefinite
  | _ => fp.indefinite

/-- Lines 191-202: the centers of the circles that the function draws on the image.  There is
no branch in the body: both quotients are formed and line 201 draws one circle for every point
sequence.  `cvMoments` is the OpenCV routine `cv::moments`. -/
def drawGreenDotAtConeCenter (cvMoments : List Point → Moments) (fp : DoubleArith)
    (trafficCone : List Point) : List Point :=
  let moments := cvMoments trafficCone
  let xCenter := castToInt fp (divDouble fp moments.m10 moments.m00)
  let yCenter := castToInt fp (divDouble fp moments.m01 moments.m00)
  [⟨xCenter, yCenter⟩]

/-! ## The count report of `main` (lines 57-64) -/

/-- Lines 57-64: the messages written between the line breaks, for `trafficCones.size() = n`. -/
def countMessages (n : Nat) : List String :=
  if n ≤ 0 then ["no traffic cones were found"]
  else if n = 1 then ["1 traffic cone was found"]
  else if n > 1 then [toString n ++ " traffic cones were found"]
  else []

/-! ## Concrete hulls -/

/-- An upward triangle twice as high as wide. -/
def tallCone : List Point := [⟨50, 0⟩, ⟨0, 200⟩, ⟨100, 200⟩]

/-- The upward triangle of the specification. -/
def upTriangle : List Point := [⟨50, 0⟩, ⟨0, 100⟩, ⟨100, 100⟩]

/-- The downward triangle of the specification. -/
def downTriangle : List Point := [⟨50, 100⟩, ⟨0, 0⟩, ⟨100, 0⟩]

/-- A square hull. -/
def squareHull : List Point := [⟨0, 0⟩, ⟨20, 0⟩, ⟨20, 20⟩, ⟨0, 20⟩]

/-- A two-point hull on a slanted line. -/
def slantedPair : List Point := [⟨0, 0⟩, ⟨10, 20⟩]

/-- An upward triangle whose center of mass, (150, 400), has integer coordinates. -/
def wideCone : List Point := [⟨150, 0⟩, ⟨0, 600⟩, ⟨300, 600⟩]

/-- The arithmetic of an x86 machine on quotients that are doubles already: rounding leaves
them as they are, and the cast of a value with no `int` value gives `INT_MIN`. -/
def x86Exact : DoubleArith := ⟨fun q => q, INT_MIN⟩

/-! ## Arithmetic of `int` values -/

theorem wrapInt_of_isInt {n : Int} (h : isInt n) : wrapInt n = n := by
  unfold isInt INT_MIN INT_MAX at h
  unfold wrapInt
  omega

theorem isInt_wrapInt (n : Int) : isInt (wrapInt n) := by
  unfold isInt INT_MIN INT_MAX wrapInt
  omega

/-- An extent `hi - lo + 1` of two `int` values that is still at least 10 after wrapping did not
wrap. -/
theorem wrapInt_extent {lo hi : Int} (hlo : isInt lo) (hhi : isInt hi) (hle : lo ≤ hi)
    (h10 : 10 ≤ wrapInt (hi - lo + 1)) : wrapInt (hi - lo + 1) = hi - lo + 1 := by
  unfold isInt INT_MIN INT_MAX at hlo hhi
  unfold wrapInt at h10 ⊢
  omega

/-! ## The scans for a least and a greatest coordinate -/

theorem foldl_min_le_init (f : Point → Int) (ps : List Point) (m : Int) :
    ps.foldl (fun m q => min m (f q)) m ≤ m := by
  induction ps generalizing m with
  | nil => simp
  | cons q qs ih =>
    simp only [List.foldl_cons]
    exact le_trans (ih _) (min_le_left _ _)

theorem foldl_min_le_mem (f : Point → Int) (ps : List Point) (m : Int) :
    ∀ q ∈ ps, ps.foldl (fun m q => min m (f q)) m ≤ f q := by
  induction ps generalizing m with
  | nil => simp
  | cons r rs ih =>
    intro q hq
    simp only [List.foldl_cons]
    rcases List.mem_cons.mp hq with rfl | hq
    · exact le_trans (foldl_min_le_init f rs _) (min_le_right _ _)
    · exact ih _ q hq

theorem foldl_min_attained (f : Point → Int) (ps : List Point) (m : Int) :
    ps.foldl (fun m q => min m (f q)) m = m ∨
      ∃ q ∈ ps, ps.foldl (fun m q => min m (f q)) m = f q := by
  induction ps generalizing m with
  | nil => simp
  | cons r rs ih =>
    simp only [List.foldl_cons]
    rcases ih (min m (f r)) with h | ⟨q, hq, h⟩
    · rcases min_choice m (f r) with hm | hm
      · left; rw [h, hm]
      · right; exact ⟨r, List.mem_cons_self _ _, by rw [h, hm]⟩
    · right; exact ⟨q, List.mem_cons_of_mem _ hq, h⟩

theorem foldl_max_ge_init (f : Point → Int) (ps : List Point) (m : Int) :
    m ≤ ps.foldl (fun m q => max m (f q)) m := by
  induction ps generalizing m with
  | nil => simp
  | cons q qs ih =>
    simp only [List.foldl_cons]
    exact le_trans (le_max_left _ _) (ih _)

theorem foldl_max_ge_mem (f : Point → Int) (ps : List Point) (m : Int) :
    ∀ q ∈ ps, f q ≤ ps.foldl (fun m q => max m (f q)) m := by
  induction ps generalizing m with
  | nil => simp
  | cons r rs ih =>
    intro q hq
    simp only [List.foldl_cons]
    rcases List.mem_cons.mp hq with rfl | hq
    · exact le_trans (le_max_right _ _) (foldl_max_ge_init f rs _)
    · exact ih _ q hq

theorem foldl_max_attained (f : Point → Int) (ps : List Point) (m : Int) :
    ps.foldl (fun m q => max m (f q)) m = m ∨
      ∃ q ∈ ps, ps.foldl (fun m q => max m (f q)) m = f q := by
  induction ps generalizing m with
  | nil => simp
  | cons r rs ih =>
    simp only [List.foldl_cons]
    rcases ih (max m (f r)) with h | ⟨q, hq, h⟩
    · rcases max_choice m (f r) with hm | hm
      · left; rw [h, hm]
      · right; exact ⟨r, List.mem_cons_self _ _, by rw [h, hm]⟩
    · right; exact ⟨q, List.mem_cons_of_mem _ hq, h⟩

/-- The least value of `f` over a non-empty list `p :: ps`, as the fold computes it. -/
theorem foldl_min_isLeast (f : Point → Int) (p : Point) (ps : List Point) :
    IsLeast {v | ∃ q ∈ p :: ps, f q = v} (ps.foldl (fun m q => min m (f q)) (f p)) := by
  constructor
  · rcases foldl_min_attained f ps (f p) with h | ⟨q, hq, h⟩
    · exact ⟨p, List.mem_cons_self _ _, h.symm⟩
    · exact ⟨q, List.mem_cons_of_mem _ hq, h.symm⟩
  · rintro v ⟨q, hq, rfl⟩
    rcases List.mem_cons.mp hq with rfl | hq
    · exact foldl_min_le_init f ps _
    · exact foldl_min_le_mem f ps _ q hq

/-- The greatest value of `f` over a non-empty list `p :: ps`, as the fold computes it. -/
theorem foldl_max_isGreatest (f : Point → Int) (p : Point) (ps : List Point) :
    IsGreatest {v | ∃ q ∈ p :: ps, f q = v} (ps.foldl (fun m q => max m (f q)) (f p)) := by
  constructor
  · rcases foldl_max_attained f ps (f p) with h | ⟨q, hq, h⟩
    · exact ⟨p, List.mem_cons_self _ _, h.symm⟩
    · exact ⟨q, List.mem_cons_of_mem _ hq, h.symm⟩
  · rintro v ⟨q, hq, rfl⟩
    rcases List.mem_cons.mp hq with rfl | hq
    · exact foldl_max_ge_init f ps _
    · exact foldl_max_ge_mem f ps _ q hq

theorem leftScan_eq_min :
    (fun (left : Int) (point : Point) => if point.x < left then point.x else left) =
      fun m q => min m q.x := by
  funext m q
  by_cases h : q.x < m
  · simp [h, min_eq_right (le_of_lt h)]
  · simp [h, min_eq_left (not_lt.mp h)]

theorem rightScan_eq_max :
    (fun (right : Int) (point : Point) => if point.x > right then point.x else right) =
      fun m q => max m q.x := by
  funext m q
  by_cases h : q.x > m
  · simp [h, max_eq_right (le_of_lt h)]
  · simp [h, max_eq_left (not_lt.mp h)]

theorem leftMost_eq (p0 : Point) (rest : List Point) :
    leftMostPointBelowCenter (p0 :: rest) =
      some (rest.foldl (fun m q => min m q.x) p0.x) := by
  simp [leftMostPointBelowCenter, leftScan_eq_min]

theorem rightMost_eq (p0 : Point) (rest : List Point) :
    rightMostPointBelowCenter (p0 :: rest) =
      some (rest.foldl (fun m q => max m q.x) p0.x) := by
  simp [rightMostPointBelowCenter, rightScan_eq_max]

theorem leftMost_isLeast {l : List Point} (hne : l ≠ []) :
    ∃ lo, leftMostPointBelowCenter l = some lo ∧ IsLeast {v | ∃ q ∈ l, q.x = v} lo := by
  cases l with
  | nil => exact absurd rfl hne
  | cons p0 rest => exact ⟨_, leftMost_eq p0 rest, foldl_min_isLeast (fun q => q.x) p0 rest⟩

theorem rightMost_isGreatest {l : List Point} (hne : l ≠ []) :
    ∃ hi, rightMostPointBelowCenter l = some hi ∧ IsGreatest {v | ∃ q ∈ l, q.x = v} hi := by
  cases l with
  | nil => exact absurd rfl hne
  | cons p0 rest => exact ⟨_, rightMost_eq p0 rest, foldl_max_isGreatest (fun q => q.x) p0 rest⟩

theorem allAboveInside_iff (left right : Int) (l : List Point) :
    allAboveInside left right l = true ↔ ∀ p ∈ l, left < p.x ∧ p.x < right := by
  induction l with
  | nil => simp [allAboveInside]
  | cons p ps ih =>
    by_cases h : p.x ≤ left ∨ p.x ≥ right
    · simp only [allAboveInside, h, if_true, List.mem_cons, forall_eq_or_imp]
      constructor
      · intro hf; cases hf
      · rintro ⟨⟨h1, h2⟩, _⟩
        rcases h with h | h <;> omega
    · simp only [allAboveInside, h, if_false, List.mem_cons, forall_eq_or_imp, ih]
      constructor
      · intro hall
        exact ⟨⟨by omega, by omega⟩, hall⟩
      · exact fun hall => hall.2

theorem mem_pointsAboveCenter {hull : List Point} {yc : Int} {p : Point} :
    p ∈ pointsAboveCenter hull yc ↔ p ∈ hull ∧ p.y < yc := by
  simp [pointsAboveCenter]

theorem mem_pointsBelowCenter {hull : List Point} {yc : Int} {p : Point} :
    p ∈ pointsBelowCenter hull yc ↔ p ∈ hull ∧ yc ≤ p.y := by
  simp [pointsBelowCenter]

/-! ## Stage 2 in terms of the base span -/

theorem isPointingUp_eq_none_iff (hull : List Point) (yc : Int) :
    isPointingUp hull yc = none ↔ pointsBelowCenter hull yc = [] := by
  unfold isPointingUp
  cases hb : pointsBelowCenter hull yc with
  | nil => simp [leftMostPointBelowCenter]
  | cons p0 rest => simp [leftMost_eq, rightMost_eq]

/-- With a non-empty base, Stage 2 compares every point above the center with the least and the
greatest `x` of the points at or below the center. -/
theorem isPointingUp_spec (hull : List Point) (yc : Int)
    (hne : pointsBelowCenter hull yc ≠ []) :
    ∃ lo hi, IsLeast {v | ∃ q ∈ hull, yc ≤ q.y ∧ q.x = v} lo ∧
      IsGreatest {v | ∃ q ∈ hull, yc ≤ q.y ∧ q.x = v} hi ∧
      ∀ b, isPointingUp hull yc = some b ↔
        (b = true ↔ ∀ p ∈ hull, p.y < yc → lo < p.x ∧ p.x < hi) := by
  obtain ⟨lo, hlo, hleast⟩ := leftMost_isLeast hne
  obtain ⟨hi, hhi, hgreatest⟩ := rightMost_isGreatest hne
  have hset : {v | ∃ q ∈ pointsBelowCenter hull yc, q.x = v} =
      {v | ∃ q ∈ hull, yc ≤ q.y ∧ q.x = v} := by
    ext v
    simp only [Set.mem_setOf_eq, mem_pointsBelowCenter]
    constructor
    · rintro ⟨q, ⟨h1, h2⟩, h3⟩; exact ⟨q, h1, h2, h3⟩
    · rintro ⟨q, h1, h2, h3⟩; exact ⟨q, ⟨h1, h2⟩, h3⟩
  rw [hset] at hleast hgreatest
  refine ⟨lo, hi, hleast, hgreatest, ?_⟩
  intro b
  have hval : isPointingUp hull yc =
      some (allAboveInside lo hi (pointsAboveCenter hull yc)) := by
    simp [isPointingUp, hlo, hhi]
  have hall : allAboveInside lo hi (pointsAboveCenter hull yc) = true ↔
      ∀ p ∈ hull, p.y < yc → lo < p.x ∧ p.x < hi := by
    rw [allAboveInside_iff]
    constructor
    · intro h p hp hy; exact h p (mem_pointsAboveCenter.mpr ⟨hp, hy⟩)
    · intro h p hp; exact h p (mem_pointsAboveCenter.mp hp).1 (mem_pointsAboveCenter.mp hp).2
  rw [hval, Option.some_inj, ← hall]
  constructor
  · rintro rfl; exact Iff.rfl
  · intro h
    cases b <;> cases hc : allAboveInside lo hi (pointsAboveCenter hull yc) <;> simp_all

/-! ## What passing Stage 1 gives -/

theorem failsGross_nil : failsGrossDimensionalCheck [] = true := by
  simp [failsGrossDimensionalCheck, boundingRect, Rect.area, wrapInt, MIN_PIXEL_AREA]

theorem failsGross_eq_false_iff (hull : List Point) :
    failsGrossDimensionalCheck hull = false ↔
      (MIN_PIXEL_AREA ≤ (boundingRect hull).area ∧
        MIN_PIXEL_WIDTH ≤ (boundingRect hull).width ∧
        MIN_PIXEL_HEIGHT ≤ (boundingRect hull).height ∧
        aspectRatioExceeds (boundingRect hull).width (boundingRect hull).height = false) := by
  simp only [failsGrossDimensionalCheck, Bool.or_eq_false_iff, decide_eq_false_iff_not, not_lt]
  tauto

/-- A hull of `int` points that passes Stage 1 has a bounding box at least 10 high whose height
did not wrap, and its y center is `y + height / 2`, strictly below the top and not below the
bottom of the box. -/
theorem stage1_pass_facts {hull : List Point} (hv : validHull hull)
    (hp : failsGrossDimensionalCheck hull = false) :
    ∃ ymin ymax, IsLeast {v | ∃ q ∈ hull, q.y = v} ymin ∧
      IsGreatest {v | ∃ q ∈ hull, q.y = v} ymax ∧
      (boundingRect hull).y = ymin ∧ (boundingRect hull).height = ymax - ymin + 1 ∧
      10 ≤ ymax - ymin + 1 ∧ yCenter hull = ymin + (ymax - ymin + 1) / 2 := by
  cases hull with
  | nil => rw [failsGross_nil] at hp; cases hp
  | cons p ps =>
    have hmin := foldl_min_isLeast (fun q => q.y) p ps
    have hmax := foldl_max_isGreatest (fun q => q.y) p ps
    obtain ⟨_, _, h10, _⟩ := (failsGross_eq_false_iff _).mp hp
    simp only [boundingRect, MIN_PIXEL_HEIGHT] at h10
    obtain ⟨T, hT, hTy⟩ := hmin.1
    obtain ⟨B, hB, hBy⟩ := hmax.1
    have hle : ps.foldl (fun m q => min m q.y) p.y ≤ ps.foldl (fun m q => max m q.y) p.y :=
      le_trans (hmin.2 ⟨p, List.mem_cons_self _ _, rfl⟩) (hmax.2 ⟨p, List.mem_cons_self _ _, rfl⟩)
    have hiT : isInt (ps.foldl (fun m q => min m q.y) p.y) := by
      rw [← hTy]; exact (hv T hT).2
    have hiB : isInt (ps.foldl (fun m q => max m q.y) p.y) := by
      rw [← hBy]; exact (hv B hB).2
    have hh := wrapInt_extent hiT hiB hle h10
    refine ⟨_, _, hmin, hmax, rfl, hh, by rw [← hh]; exact h10, ?_⟩
    have h10' : 10 ≤ ps.foldl (fun m q => max m q.y) p.y - ps.foldl (fun m q => min m q.y) p.y + 1 := by
      rw [← hh]; exact h10
    simp only [yCenter, boundingRect, hh]
    rw [Int.tdiv_eq_ediv (by omega) (by omega)]
    apply wrapInt_of_isInt
    unfold isInt INT_MIN INT_MAX at *
    omega

/-- A hull of `int` points that passes Stage 1 has a point above and a point at or below its
y center. -/
theorem stage1_pass_top_bottom {hull : List Point} (hv : validHull hull)
    (hp : failsGrossDimensionalCheck hull = false) :
    (∃ T ∈ hull, T.y < yCenter hull) ∧ (∃ B ∈ hull, yCenter hull ≤ B.y) := by
  obtain ⟨ymin, ymax, hmin, hmax, _, _, h10, hyc⟩ := stage1_pass_facts hv hp
  obtain ⟨T, hT, hTy⟩ := hmin.1
  obtain ⟨B, hB, hBy⟩ := hmax.1
  refine ⟨⟨T, hT, ?_⟩, ⟨B, hB, ?_⟩⟩
  · rw [hyc, hTy]; omega
  · rw [hyc, hBy]; omega

theorem stage1_pass_below_ne_nil {hull : List Point} (hv : validHull hull)
    (hp : failsGrossDimensionalCheck hull = false) :
    pointsBelowCenter hull (yCenter hull) ≠ [] := by
  obtain ⟨_, B, hB, hBy⟩ := stage1_pass_top_bottom hv hp
  exact List.ne_nil_of_mem (mem_pointsBelowCenter.mpr ⟨hB, hBy⟩)

/-! ## The bounding box in the words of the specification -/

theorem boundingRect_of_isBoundingBox {hull : List Point} {r : Rect}
    (hbox : IsBoundingBox hull r) :
    boundingRect hull = ⟨r.x, r.y, wrapInt r.width, wrapInt r.height⟩ := by
  rcases hbox with ⟨rfl, rfl⟩ | ⟨hne, hx, hy, hX, hY⟩
  · simp [boundingRect, wrapInt]
  · cases hull with
    | nil => exact absurd rfl hne
    | cons p ps =>
      have e1 := (foldl_min_isLeast (fun q => q.x) p ps).unique hx
      have e2 := (foldl_min_isLeast (fun q => q.y) p ps).unique hy
      have e3 := (foldl_max_isGreatest (fun q => q.x) p ps).unique hX
      have e4 := (foldl_max_isGreatest (fun q => q.y) p ps).unique hY
      simp only [] at e1 e2 e3 e4
      simp only [boundingRect, e1, e2, e3, e4]
      congr 2 <;> ring

theorem isBoundingBox_exact (hull : List Point) : IsBoundingBox hull (exactBoundingBox hull) := by
  cases hull with
  | nil => left; exact ⟨rfl, rfl⟩
  | cons p ps =>
    right
    refine ⟨List.cons_ne_nil _ _, foldl_min_isLeast (fun q => q.x) p ps,
      foldl_min_isLeast (fun q => q.y) p ps, ?_, ?_⟩
    · have h := foldl_max_isGreatest (fun q => q.x) p ps
      simp only [exactBoundingBox]
      convert h using 1
      ring
    · have h := foldl_max_isGreatest (fun q => q.y) p ps
      simp only [exactBoundingBox]
      convert h using 1
      ring

/-- The exact extents of the box of a non-empty hull of `int` points lie between 1 and `2^32`. -/
theorem isBoundingBox_bounds {hull : List Point} {r : Rect} (hv : validHull hull)
    (hne : hull ≠ []) (hbox : IsBoundingBox hull r) :
    (1 ≤ r.width ∧ r.width ≤ 4294967296) ∧ (1 ≤ r.height ∧ r.height ≤ 4294967296) := by
  rcases hbox with ⟨rfl, _⟩ | ⟨_, hx, hy, hX, hY⟩
  · exact absurd rfl hne
  · obtain ⟨a, ha, hax⟩ := hx.1
    obtain ⟨b, hb, hby⟩ := hy.1
    obtain ⟨c, hc, hcx⟩ := hX.1
    obtain ⟨d, hd, hdy⟩ := hY.1
    have h1 := hx.2 ⟨c, hc, rfl⟩
    have h2 := hy.2 ⟨d, hd, rfl⟩
    have va := (hv a ha).1
    have vb := (hv b hb).2
    have vc := (hv c hc).1
    have vd := (hv d hd).2
    unfold isInt INT_MIN INT_MAX at va vb vc vd
    refine ⟨⟨?_, ?_⟩, ⟨?_, ?_⟩⟩ <;> omega

theorem aspectRatioExceeds_of_gt {w h : Int} (hh : h ≠ 0)
    (hr : (w : ℚ) / (h : ℚ) > 8 / 10) : aspectRatioExceeds w h = true := by
  simp [aspectRatioExceeds, hh, MAX_ASPECT_RATIO, hr]

theorem isTrafficCone_of_fails {hull : List Point}
    (h : failsGrossDimensionalCheck hull = true) : isTrafficCone hull = some false := by
  simp [isTrafficCone, h]

/-- Stage 1 on the exact box: every threshold of the specification rejects. -/
theorem failsGross_of_box {hull : List Point} {r : Rect} (hv : validHull hull)
    (hbox : IsBoundingBox hull r)
    (hc : r.width * r.height < 80 ∨ r.width < 10 ∨ r.height < 10 ∨
      (r.width : ℚ) / (r.height : ℚ) > 8 / 10) :
    failsGrossDimensionalCheck hull = true := by
  by_cases hne : hull = []
  · rw [hne]; exact failsGross_nil
  obtain ⟨⟨hw1, hw2⟩, ⟨hh1, hh2⟩⟩ := isBoundingBox_bounds hv hne hbox
  have hbr := boundingRect_of_isBoundingBox hbox
  by_cases hW : wrapInt r.width < 10
  · simp [failsGrossDimensionalCheck, hbr, MIN_PIXEL_WIDTH, hW]
  by_cases hH : wrapInt r.height < 10
  · simp [failsGrossDimensionalCheck, hbr, MIN_PIXEL_HEIGHT, hH]
  have ew : wrapInt r.width = r.width := by
    unfold wrapInt at hW ⊢; omega
  have eh : wrapInt r.height = r.height := by
    unfold wrapInt at hH ⊢; omega
  rw [ew] at hW
  rw [eh] at hH
  have hratio : aspectRatioExceeds r.width r.height = true := by
    rcases hc with h | h | h | h
    · exfalso; nlinarith
    · exfalso; omega
    · exfalso; omega
    · exact aspectRatioExceeds_of_gt (by omega) h
  simp [failsGrossDimensionalCheck, hbr, ew, eh, hratio]

theorem yCenter_eq_of_pass {hull : List Point} (hv : validHull hull)
    (hp : failsGrossDimensionalCheck hull = false) :
    yCenter hull = (boundingRect hull).y + (boundingRect hull).height / 2 := by
  obtain ⟨ymin, ymax, _, _, hy, hh, _, hyc⟩ := stage1_pass_facts hv hp
  rw [hyc, hy, hh]

theorem isTrafficCone_of_pass {hull : List Point}
    (hp : failsGrossDimensionalCheck hull = false) :
    isTrafficCone hull = isPointingUp hull (yCenter hull) := by
  simp [isTrafficCone, hp]

/-! ## Evaluation on concrete hulls -/

theorem failsGross_tallCone : failsGrossDimensionalCheck tallCone = false := by
  simp [failsGrossDimensionalCheck, tallCone, boundingRect, Rect.area, wrapInt,
    aspectRatioExceeds, MAX_ASPECT_RATIO, MIN_PIXEL_AREA, MIN_PIXEL_WIDTH, MIN_PIXEL_HEIGHT]
  norm_num

theorem failsGross_upTriangle : failsGrossDimensionalCheck upTriangle = true := by
  simp [failsGrossDimensionalCheck, upTriangle, boundingRect, Rect.area, wrapInt,
    aspectRatioExceeds, MAX_ASPECT_RATIO, MIN_PIXEL_AREA, MIN_PIXEL_WIDTH, MIN_PIXEL_HEIGHT]
  norm_num

theorem failsGross_slantedPair : failsGrossDimensionalCheck slantedPair = false := by
  simp [failsGrossDimensionalCheck, slantedPair, boundingRect, Rect.area, wrapInt,
    aspectRatioExceeds, MAX_ASPECT_RATIO, MIN_PIXEL_AREA, MIN_PIXEL_WIDTH, MIN_PIXEL_HEIGHT]
  norm_num

/-! ## The claims -/

/-- C1. For every hull of `int` points that passes Stage 1, with
`yCenter = boundingRect.y + floor(boundingRect.height / 2)`, the points with `y >= yCenter` have
a least `x` (`lo`) and a greatest `x` (`hi`), `isTrafficCone` returns a boolean, and that
boolean is `true` exactly when every hull point with `y < yCenter` has `lo < x < hi`. -/
theorem stage2_is_strictly_inside_base_span (hull : List Point) (hv : validHull hull)
    (hp : failsGrossDimensionalCheck hull = false) :
    ∃ lo hi b,
      IsLeast {v | ∃ q ∈ hull,
        (boundingRect hull).y + (boundingRect hull).height / 2 ≤ q.y ∧ q.x = v} lo ∧
      IsGreatest {v | ∃ q ∈ hull,
        (boundingRect hull).y + (boundingRect hull).height / 2 ≤ q.y ∧ q.x = v} hi ∧
      isTrafficCone hull = some b ∧
      (b = true ↔ ∀ p ∈ hull,
        p.y < (boundingRect hull).y + (boundingRect hull).height / 2 → lo < p.x ∧ p.x < hi) := by
  rw [← yCenter_eq_of_pass hv hp]
  obtain ⟨lo, hi, hlo, hhi, hb⟩ :=
    isPointingUp_spec hull (yCenter hull) (stage1_pass_below_ne_nil hv hp)
  cases hval : isPointingUp hull (yCenter hull) with
  | none =>
    exact absurd ((isPointingUp_eq_none_iff _ _).mp hval) (stage1_pass_below_ne_nil hv hp)
  | some b =>
    exact ⟨lo, hi, b, hlo, hhi, by rw [isTrafficCone_of_pass hp, hval], (hb b).mp hval⟩

/-- C1 at the tall upward triangle (50,0), (0,200), (100,200). -/
theorem stage2_is_strictly_inside_base_span_witness :
    validHull tallCone ∧ failsGrossDimensionalCheck tallCone = false ∧
    ∃ lo hi b,
      IsLeast {v | ∃ q ∈ tallCone,
        (boundingRect tallCone).y + (boundingRect tallCone).height / 2 ≤ q.y ∧ q.x = v} lo ∧
      IsGreatest {v | ∃ q ∈ tallCone,
        (boundingRect tallCone).y + (boundingRect tallCone).height / 2 ≤ q.y ∧ q.x = v} hi ∧
      isTrafficCone tallCone = some b ∧
      (b = true ↔ ∀ p ∈ tallCone,
        p.y < (boundingRect tallCone).y + (boundingRect tallCone).height / 2 →
          lo < p.x ∧ p.x < hi) :=
  ⟨by decide, failsGross_tallCone,
    stage2_is_strictly_inside_base_span tallCone (by decide) failsGross_tallCone⟩

/-- C2. For every hull of `int` points and its exact bounding box (`x = min x`, `y = min y`,
`width = max x - min x + 1`, `height = max y - min y + 1`; `0x0` for the empty hull): when the box
has area below 80, or width below 10, or height below 10, or width/height above 0.8,
`isTrafficCone` returns `false`; and it returns `false` whenever the box is a square. -/
theorem stage1_rejects_on_each_threshold (hull : List Point) (r : Rect) (hv : validHull hull)
    (hbox : IsBoundingBox hull r) :
    (r.width * r.height < 80 ∨ r.width < 10 ∨ r.height < 10 ∨
        (r.width : ℚ) / (r.height : ℚ) > 8 / 10 → isTrafficCone hull = some false) ∧
      (r.width = r.height → isTrafficCone hull = some false) := by
  refine ⟨fun hc => isTrafficCone_of_fails (failsGross_of_box hv hbox hc), fun hsq => ?_⟩
  apply isTrafficCone_of_fails
  apply failsGross_of_box hv hbox
  by_cases h10 : r.height < 10
  · exact Or.inr (Or.inr (Or.inl h10))
  · refine Or.inr (Or.inr (Or.inr ?_))
    have hpos : (0 : ℚ) < (r.height : ℚ) := by
      have : (0 : Int) < r.height := by omega
      exact_mod_cast this
    rw [hsq, div_self (ne_of_gt hpos)]
    norm_num

/-- C2 at the 21x21 square hull (0,0), (20,0), (20,20), (0,20). -/
theorem stage1_rejects_on_each_threshold_witness :
    validHull squareHull ∧ IsBoundingBox squareHull ⟨0, 0, 21, 21⟩ ∧
      isTrafficCone squareHull = some false :=
  ⟨by decide, isBoundingBox_exact squareHull,
    (stage1_rejects_on_each_threshold squareHull ⟨0, 0, 21, 21⟩ (by decide)
      (isBoundingBox_exact squareHull)).2 rfl⟩

/-- C3, as the code behaves: the triangle (50,0), (0,100), (100,100) has a 101x101 bounding box;
it passes the Stage-2 pointing-up check but fails Stage 1 (width/height is 1, above 0.8), and
`isTrafficCone` returns `false` on it. -/
theorem upTriangle_rejected_at_stage1 :
    boundingRect upTriangle = ⟨0, 0, 101, 101⟩ ∧
      aspectRatioExceeds 101 101 = true ∧
      failsGrossDimensionalCheck upTriangle = true ∧
      isPointingUp upTriangle (yCenter upTriangle) = some true ∧
      isTrafficCone upTriangle = some false :=
  ⟨by decide, by simp [aspectRatioExceeds, MAX_ASPECT_RATIO]; norm_num, failsGross_upTriangle,
    by decide, isTrafficCone_of_fails failsGross_upTriangle⟩

/-- C3 as stated fails: `isTrafficCone` does not return `true` on the triangle
(50,0), (0,100), (100,100). -/
theorem upTriangle_not_accepted : isTrafficCone upTriangle ≠ some true := by
  rw [isTrafficCone_of_fails failsGross_upTriangle]
  decide

/-! ## Hulls on one line -/

/-- Three points of one line: a point strictly between two others in `x` is not strictly above
both of them. -/
theorem line_no_peak {a b c : Int} (hab : a ≠ 0 ∨ b ≠ 0) {T L R : Point}
    (hT : a * T.x + b * T.y = c) (hL : a * L.x + b * L.y = c) (hR : a * R.x + b * R.y = c)
    (hyL : T.y < L.y) (hyR : T.y < R.y) (hxL : L.x < T.x) (hxR : T.x < R.x) : False := by
  have h1 : a * (T.x - L.x) = b * (L.y - T.y) := by linear_combination hT - hL
  have h2 : a * (R.x - T.x) = b * (T.y - R.y) := by linear_combination hR - hT
  have h3 : b * ((L.y - T.y) * (R.x - T.x) + (R.y - T.y) * (T.x - L.x)) = 0 := by
    linear_combination (-(R.x - T.x)) * h1 + (T.x - L.x) * h2
  have hpos : 0 < (L.y - T.y) * (R.x - T.x) + (R.y - T.y) * (T.x - L.x) := by
    have p1 : 0 < (L.y - T.y) * (R.x - T.x) := mul_pos (by omega) (by omega)
    have p2 : 0 < (R.y - T.y) * (T.x - L.x) := mul_pos (by omega) (by omega)
    omega
  have hb : b = 0 := by
    rcases mul_eq_zero.mp h3 with h | h
    · exact h
    · omega
  have ha : a = 0 := by
    rw [hb, zero_mul] at h1
    rcases mul_eq_zero.mp h1 with h | h
    · exact h
    · omega
  rcases hab with h | h
  · exact h ha
  · exact h hb

/-- A hull of `int` points on one line that passes Stage 1 is rejected by Stage 2. -/
theorem collinear_fails_stage2 {hull : List Point} (hv : validHull hull)
    (hp : failsGrossDimensionalCheck hull = false) (hc : Collinear hull) :
    isPointingUp hull (yCenter hull) = some false := by
  obtain ⟨a, b, c, hab, hline⟩ := hc
  obtain ⟨⟨T, hT, hTy⟩, _⟩ := stage1_pass_top_bottom hv hp
  obtain ⟨lo, hi, hlo, hhi, hb⟩ :=
    isPointingUp_spec hull (yCenter hull) (stage1_pass_below_ne_nil hv hp)
  apply (hb false).mpr
  constructor
  · intro h; cases h
  · intro hall
    exfalso
    obtain ⟨L, hL, hLy, hLx⟩ := hlo.1
    obtain ⟨R, hR, hRy, hRx⟩ := hhi.1
    have hin := hall T hT hTy
    exact line_no_peak hab (hline T hT) (hline L hL) (hline R hR) (by omega) (by omega)
      (by omega) (by omega)

theorem collinear_of_length_le_two {hull : List Point} (h : hull.length ≤ 2) :
    Collinear hull := by
  match hull, h with
  | [], _ => exact ⟨1, 0, 0, Or.inl one_ne_zero, by simp⟩
  | [p], _ => exact ⟨1, 0, p.x, Or.inl one_ne_zero, by simp⟩
  | [p, q], _ =>
    by_cases hx : q.x = p.x
    · exact ⟨1, 0, p.x, Or.inl one_ne_zero, by simp [hx]⟩
    · refine ⟨q.y - p.y, p.x - q.x, (q.y - p.y) * p.x + (p.x - q.x) * p.y,
        Or.inr (fun h0 => hx (by omega)), ?_⟩
      intro r hr
      simp only [List.mem_cons, List.mem_singleton, List.not_mem_nil, or_false] at hr
      rcases hr with rfl | rfl
      · rfl
      · ring

theorem degenerate_rejected {hull : List Point} (hv : validHull hull)
    (hd : Collinear hull) : isTrafficCone hull = some false := by
  cases hp : failsGrossDimensionalCheck hull with
  | true => exact isTrafficCone_of_fails hp
  | false => rw [isTrafficCone_of_pass hp]; exact collinear_fails_stage2 hv hp hd

/-- C6. `isTrafficCone` returns `false` for every hull of `int` points with zero, one or two
points, and for every hull whose points all lie on one straight line, whatever the size of its
bounding box. -/
theorem degenerate_hull_never_cone (hull : List Point) (hv : validHull hull)
    (hd : hull.length ≤ 2 ∨ Collinear hull) : isTrafficCone hull = some false := by
  rcases hd with h | h
  · exact degenerate_rejected hv (collinear_of_length_le_two h)
  · exact degenerate_rejected hv h

/-- C6 at the two-point hull (0,0), (10,20), whose 11x21 bounding box passes Stage 1. -/
theorem degenerate_hull_never_cone_witness :
    validHull slantedPair ∧ (slantedPair.length ≤ 2 ∨ Collinear slantedPair) ∧
      isTrafficCone slantedPair = some false :=
  ⟨by decide, Or.inl (by decide),
    degenerate_hull_never_cone slantedPair (by decide) (Or.inl (by decide))⟩

/-- C7. For every hull of `int` points, the empty hull included, `isTrafficCone` returns a
boolean and never reads element 0 of an empty vector: when no hull point has `y >= yCenter` it
returns `false`, and every hull that passes Stage 1 has a point with `y >= yCenter`. -/
theorem base_lookup_never_faults (hull : List Point) (hv : validHull hull) :
    (∃ b, isTrafficCone hull = some b) ∧
      (pointsBelowCenter hull (yCenter hull) = [] → isTrafficCone hull = some false) ∧
      (failsGrossDimensionalCheck hull = false →
        pointsBelowCenter hull (yCenter hull) ≠ [] ∧ ∃ B ∈ hull, yCenter hull ≤ B.y) := by
  cases hp : failsGrossDimensionalCheck hull with
  | true =>
    refine ⟨⟨false, isTrafficCone_of_fails hp⟩, fun _ => isTrafficCone_of_fails hp, ?_⟩
    intro h; cases h
  | false =>
    have hne := stage1_pass_below_ne_nil hv hp
    refine ⟨?_, fun h => absurd h hne, fun _ => ⟨hne, (stage1_pass_top_bottom hv hp).2⟩⟩
    rw [isTrafficCone_of_pass hp]
    cases hval : isPointingUp hull (yCenter hull) with
    | none => exact absurd ((isPointingUp_eq_none_iff _ _).mp hval) hne
    | some b => exact ⟨b, rfl⟩

/-- C7 at the tall upward triangle (50,0), (0,200), (100,200), which passes Stage 1, and at
the empty hull, which has no point at or below the center. -/
theorem base_lookup_never_faults_witness :
    validHull tallCone ∧ (∃ b, isTrafficCone tallCone = some b) ∧
      (pointsBelowCenter tallCone (yCenter tallCone) ≠ [] ∧
        ∃ B ∈ tallCone, yCenter tallCone ≤ B.y) ∧
      validHull [] ∧ pointsBelowCenter [] (yCenter []) = [] ∧ isTrafficCone [] = some false :=
  ⟨by decide, (base_lookup_never_faults tallCone (by decide)).1,
    (base_lookup_never_faults tallCone (by decide)).2.2 failsGross_tallCone,
    by decide, rfl, (base_lookup_never_faults [] (by decide)).2.1 rfl⟩

/-! ## Downward triangles -/

theorem boundingRect_y_height {hull : List Point} (hne : hull ≠ []) {ymin ymax : Int}
    (hmin : IsLeast {v | ∃ q ∈ hull, q.y = v} ymin)
    (hmax : IsGreatest {v | ∃ q ∈ hull, q.y = v} ymax) :
    (boundingRect hull).y = ymin ∧ (boundingRect hull).height = wrapInt (ymax - ymin + 1) := by
  cases hull with
  | nil => exact absurd rfl hne
  | cons p ps =>
    have e1 := (foldl_min_isLeast (fun q => q.y) p ps).unique hmin
    have e2 := (foldl_max_isGreatest (fun q => q.y) p ps).unique hmax
    simp only [] at e1 e2
    simp only [boundingRect, e1, e2, and_self]

theorem mem_triangle {l r a yTop yBottom : Int} {hull : List Point}
    (hperm : hull.Perm [⟨l, yTop⟩, ⟨r, yTop⟩, ⟨a, yBottom⟩]) (p : Point) :
    p ∈ hull ↔ p = ⟨l, yTop⟩ ∨ p = ⟨r, yTop⟩ ∨ p = ⟨a, yBottom⟩ := by
  rw [hperm.mem_iff]
  simp

/-- Stage 2 on a downward triangle, for any y center below the top edge and not below the
apex: the base is the apex alone and the top corners are not strictly inside it. -/
theorem downward_triangle_stage2 {l r a yTop yBottom yc : Int} {hull : List Point}
    (hperm : hull.Perm [⟨l, yTop⟩, ⟨r, yTop⟩, ⟨a, yBottom⟩])
    (h1 : yTop < yc) (h2 : yc ≤ yBottom) : isPointingUp hull yc = some false := by
  have hmem := mem_triangle hperm
  have hapex : (⟨a, yBottom⟩ : Point) ∈ pointsBelowCenter hull yc :=
    mem_pointsBelowCenter.mpr ⟨(hmem _).mpr (Or.inr (Or.inr rfl)), h2⟩
  obtain ⟨lo, hi, hlo, hhi, hb⟩ := isPointingUp_spec hull yc (List.ne_nil_of_mem hapex)
  have hbase : ∀ v, (∃ q ∈ hull, yc ≤ q.y ∧ q.x = v) → v = a := by
    rintro v ⟨q, hq, hqy, rfl⟩
    rcases (hmem q).mp hq with rfl | rfl | rfl
    · simp only at hqy; omega
    · simp only at hqy; omega
    · rfl
  have elo : lo = a := hbase lo hlo.1
  have ehi : hi = a := hbase hi hhi.1
  apply (hb false).mpr
  constructor
  · intro h; cases h
  · intro hall
    exfalso
    have := hall ⟨l, yTop⟩ ((hmem _).mpr (Or.inl rfl)) h1
    simp only at this
    omega

theorem triangle_y_extremes {l r a yTop yBottom : Int} {hull : List Point}
    (hy : yTop < yBottom) (hperm : hull.Perm [⟨l, yTop⟩, ⟨r, yTop⟩, ⟨a, yBottom⟩]) :
    IsLeast {v | ∃ q ∈ hull, q.y = v} yTop ∧ IsGreatest {v | ∃ q ∈ hull, q.y = v} yBottom := by
  have hmem := mem_triangle hperm
  refine ⟨⟨⟨⟨l, yTop⟩, (hmem _).mpr (Or.inl rfl), rfl⟩, ?_⟩,
    ⟨⟨⟨a, yBottom⟩, (hmem _).mpr (Or.inr (Or.inr rfl)), rfl⟩, ?_⟩⟩
  · rintro v ⟨q, hq, rfl⟩
    rcases (hmem q).mp hq with rfl | rfl | rfl <;> simp only <;> omega
  · rintro v ⟨q, hq, rfl⟩
    rcases (hmem q).mp hq with rfl | rfl | rfl <;> simp only <;> omega

/-- C4. For every three-point hull of `int` points made of two top corners `(l, yTop)`,
`(r, yTop)` and a bottom apex `(a, yBottom)` with `yTop < yBottom`, in any order,
`isTrafficCone` returns `false`; and whenever Stage 2 is reached (Stage 1 passed), and also
whenever the height `yBottom - yTop + 1` is an `int` value, the Stage-2 pointing-up check itself
returns `false`: it finds a point above the center that is outside the base span. -/
theorem downward_triangle_fails (l r a yTop yBottom : Int) (hull : List Point)
    (hv : validHull hull) (hy : yTop < yBottom)
    (hperm : hull.Perm [⟨l, yTop⟩, ⟨r, yTop⟩, ⟨a, yBottom⟩]) :
    isTrafficCone hull = some false ∧
      (failsGrossDimensionalCheck hull = false ∨ yBottom - yTop < INT_MAX →
        isPointingUp hull (yCenter hull) = some false) := by
  have hmem := mem_triangle hperm
  have hfirst : isTrafficCone hull = some false := by
    cases hp : failsGrossDimensionalCheck hull with
    | true => exact isTrafficCone_of_fails hp
    | false =>
      rw [isTrafficCone_of_pass hp]
      obtain ⟨⟨T, hT, hTy⟩, ⟨B, hB, hBy⟩⟩ := stage1_pass_top_bottom hv hp
      apply downward_triangle_stage2 hperm
      · rcases (hmem T).mp hT with rfl | rfl | rfl <;> simp only at hTy <;> omega
      · rcases (hmem B).mp hB with rfl | rfl | rfl <;> simp only at hBy <;> omega
  refine ⟨hfirst, ?_⟩
  rintro (hp | hh)
  · rw [← isTrafficCone_of_pass hp]; exact hfirst
  · have hne : hull ≠ [] := List.ne_nil_of_mem ((hmem ⟨l, yTop⟩).mpr (Or.inl rfl))
    obtain ⟨hmin, hmax⟩ := triangle_y_extremes hy hperm
    obtain ⟨e1, e2⟩ := boundingRect_y_height hne hmin hmax
    have vT := (hv ⟨l, yTop⟩ ((hmem _).mpr (Or.inl rfl))).2
    have vB := (hv ⟨a, yBottom⟩ ((hmem _).mpr (Or.inr (Or.inr rfl)))).2
    simp only at vT vB
    have eh : wrapInt (yBottom - yTop + 1) = yBottom - yTop + 1 := by
      apply wrapInt_of_isInt
      unfold isInt INT_MIN INT_MAX at *
      omega
    have eyc : yCenter hull = yTop + (yBottom - yTop + 1) / 2 := by
      simp only [yCenter, e1, e2, eh]
      rw [Int.tdiv_eq_ediv (by omega) (by omega)]
      apply wrapInt_of_isInt
      unfold isInt INT_MIN INT_MAX at *
      omega
    apply downward_triangle_stage2 hperm
    · rw [eyc]; omega
    · rw [eyc]; omega

/-- C4 at the downward triangle of the specification, (50,100), (0,0), (100,0). -/
theorem downward_triangle_fails_witness :
    validHull downTriangle ∧ (0 : Int) < 100 ∧
      downTriangle.Perm [⟨0, 0⟩, ⟨100, 0⟩, ⟨50, 100⟩] ∧
      isTrafficCone downTriangle = some false ∧
      isPointingUp downTriangle (yCenter downTriangle) = some false :=
  ⟨by decide, by decide, by decide,
    (downward_triangle_fails 0 100 50 0 100 downTriangle (by decide) (by decide)
      (by decide)).1,
    (downward_triangle_fails 0 100 50 0 100 downTriangle (by decide) (by decide)
      (by decide)).2 (Or.inr (by decide))⟩

/-! ## Translation along the x axis -/

theorem foldl_min_x_translate (dx : Int) (ps : List Point) (m : Int) :
    (translateX dx ps).foldl (fun m q => min m q.x) (m + dx) =
      ps.foldl (fun m q => min m q.x) m + dx := by
  induction ps generalizing m with
  | nil => rfl
  | cons q qs ih =>
    simp only [translateX, List.map_cons, List.foldl_cons] at ih ⊢
    rw [min_add_add_right, ih]

theorem foldl_max_x_translate (dx : Int) (ps : List Point) (m : Int) :
    (translateX dx ps).foldl (fun m q => max m q.x) (m + dx) =
      ps.foldl (fun m q => max m q.x) m + dx := by
  induction ps generalizing m with
  | nil => rfl
  | cons q qs ih =>
    simp only [translateX, List.map_cons, List.foldl_cons] at ih ⊢
    rw [max_add_add_right, ih]

theorem foldl_y_translate (g : Int → Int → Int) (dx : Int) (ps : List Point) (m : Int) :
    (translateX dx ps).foldl (fun m q => g m q.y) m = ps.foldl (fun m q => g m q.y) m := by
  induction ps generalizing m with
  | nil => rfl
  | cons q qs ih =>
    simp only [translateX, List.map_cons, List.foldl_cons] at ih ⊢
    rw [ih]

theorem boundingRect_translate (dx : Int) (hull : List Point) :
    (boundingRect (translateX dx hull)).y = (boundingRect hull).y ∧
      (boundingRect (translateX dx hull)).width = (boundingRect hull).width ∧
      (boundingRect (translateX dx hull)).height = (boundingRect hull).height := by
  cases hull with
  | nil => exact ⟨rfl, rfl, rfl⟩
  | cons p ps =>
    have hmin := foldl_min_x_translate dx ps p.x
    have hmax := foldl_max_x_translate dx ps p.x
    have ymin := foldl_y_translate min dx ps p.y
    have ymax := foldl_y_translate max dx ps p.y
    simp only [translateX] at hmin hmax ymin ymax
    simp only [translateX, List.map_cons, boundingRect, hmin, hmax, ymin, ymax, true_and,
      add_sub_add_right_eq_sub, and_self]

theorem yCenter_translate (dx : Int) (hull : List Point) :
    yCenter (translateX dx hull) = yCenter hull := by
  obtain ⟨h1, _, h3⟩ := boundingRect_translate dx hull
  simp only [yCenter, h1, h3]

theorem failsGross_translate (dx : Int) (hull : List Point) :
    failsGrossDimensionalCheck (translateX dx hull) = failsGrossDimensionalCheck hull := by
  obtain ⟨_, h2, h3⟩ := boundingRect_translate dx hull
  simp only [failsGrossDimensionalCheck, Rect.area, h2, h3]

theorem pointsAboveCenter_translate (dx : Int) (hull : List Point) (yc : Int) :
    pointsAboveCenter (translateX dx hull) yc = translateX dx (pointsAboveCenter hull yc) := by
  simp only [pointsAboveCenter, translateX, List.filter_map]
  rfl

theorem pointsBelowCenter_translate (dx : Int) (hull : List Point) (yc : Int) :
    pointsBelowCenter (translateX dx hull) yc = translateX dx (pointsBelowCenter hull yc) := by
  simp only [pointsBelowCenter, translateX, List.filter_map]
  rfl

theorem leftMost_translate (dx : Int) (l : List Point) :
    leftMostPointBelowCenter (translateX dx l) =
      (leftMostPointBelowCenter l).map (fun v => v + dx) := by
  cases l with
  | nil => rfl
  | cons p ps =>
    have h := foldl_min_x_translate dx ps p.x
    simp only [translateX] at h
    simp only [translateX, List.map_cons, leftMost_eq, Option.map_some', h]

theorem rightMost_translate (dx : Int) (l : List Point) :
    rightMostPointBelowCenter (translateX dx l) =
      (rightMostPointBelowCenter l).map (fun v => v + dx) := by
  cases l with
  | nil => rfl
  | cons p ps =>
    have h := foldl_max_x_translate dx ps p.x
    simp only [translateX] at h
    simp only [translateX, List.map_cons, rightMost_eq, Option.map_some', h]

theorem allAboveInside_translate (dx left right : Int) (l : List Point) :
    allAboveInside (left + dx) (right + dx) (translateX dx l) = allAboveInside left right l := by
  induction l with
  | nil => rfl
  | cons p ps ih =>
    simp only [translateX, List.map_cons, allAboveInside] at ih ⊢
    rw [ih]
    have : (p.x + dx ≤ left + dx ∨ p.x + dx ≥ right + dx) ↔ (p.x ≤ left ∨ p.x ≥ right) := by
      constructor <;> (intro h; rcases h with h | h <;> [left; right] <;> omega)
    simp only [this]

theorem isPointingUp_translate (dx : Int) (hull : List Point) (yc : Int) :
    isPointingUp (translateX dx hull) yc = isPointingUp hull yc := by
  simp only [isPointingUp, pointsAboveCenter_translate, pointsBelowCenter_translate,
    leftMost_translate, rightMost_translate]
  cases hl : leftMostPointBelowCenter (pointsBelowCenter hull yc) with
  | none => simp
  | some lo =>
    cases hr : rightMostPointBelowCenter (pointsBelowCenter hull yc) with
    | none => simp
    | some hi => simp [allAboveInside_translate]

/-- C5. For every hull of `int` points that passes Stage 1 and every integer `dx` (so also
every `dx` that keeps the coordinates in `int` range), the hull moved by `dx` along x passes
Stage 1 too, its Stage-2 outcome is the same, and `isTrafficCone` returns the same boolean for
both hulls. -/
theorem verdict_invariant_under_x_translation (hull : List Point) (dx : Int)
    (hv : validHull hull) (hp : failsGrossDimensionalCheck hull = false) :
    failsGrossDimensionalCheck (translateX dx hull) = false ∧
      isPointingUp (translateX dx hull) (yCenter (translateX dx hull)) =
        isPointingUp hull (yCenter hull) ∧
      ∃ b, isTrafficCone hull = some b ∧ isTrafficCone (translateX dx hull) = some b := by
  have hp2 : failsGrossDimensionalCheck (translateX dx hull) = false := by
    rw [failsGross_translate]; exact hp
  have hst : isPointingUp (translateX dx hull) (yCenter (translateX dx hull)) =
      isPointingUp hull (yCenter hull) := by
    rw [yCenter_translate, isPointingUp_translate]
  refine ⟨hp2, hst, ?_⟩
  rw [isTrafficCone_of_pass hp, isTrafficCone_of_pass hp2, hst]
  cases hval : isPointingUp hull (yCenter hull) with
  | none =>
    exact absurd ((isPointingUp_eq_none_iff _ _).mp hval) (stage1_pass_below_ne_nil hv hp)
  | some b => exact ⟨b, rfl, rfl⟩

/-- C5 at the tall upward triangle moved 1000 pixels to the right. -/
theorem verdict_invariant_under_x_translation_witness :
    validHull tallCone ∧ validHull (translateX 1000 tallCone) ∧
      failsGrossDimensionalCheck tallCone = false ∧
      translateX 1000 tallCone = [⟨1050, 0⟩, ⟨1000, 200⟩, ⟨1100, 200⟩] ∧
      (failsGrossDimensionalCheck (translateX 1000 tallCone) = false ∧
        isPointingUp (translateX 1000 tallCone) (yCenter (translateX 1000 tallCone)) =
          isPointingUp tallCone (yCenter tallCone) ∧
        ∃ b, isTrafficCone tallCone = some b ∧
          isTrafficCone (translateX 1000 tallCone) = some b) :=
  ⟨by decide, by decide, failsGross_tallCone, by decide,
    verdict_invariant_under_x_translation tallCone 1000 (by decide) failsGross_tallCone⟩

/-! ## Zero-area hulls and Stage 1 -/

theorem failsGross_of_width_one {hull : List Point} (h : (boundingRect hull).width = 1) :
    failsGrossDimensionalCheck hull = true := by
  simp [failsGrossDimensionalCheck, h, MIN_PIXEL_WIDTH]

theorem failsGross_of_height_one {hull : List Point} (h : (boundingRect hull).height = 1) :
    failsGrossDimensionalCheck hull = true := by
  simp [failsGrossDimensionalCheck, h, MIN_PIXEL_HEIGHT]

theorem width_one_of_same_x {hull : List Point} (hne : hull ≠ []) {c : Int}
    (hc : ∀ p ∈ hull, p.x = c) : (boundingRect hull).width = 1 := by
  cases hull with
  | nil => exact absurd rfl hne
  | cons p ps =>
    obtain ⟨q, hq, e1⟩ := (foldl_min_isLeast (fun q => q.x) p ps).1
    obtain ⟨q2, hq2, e2⟩ := (foldl_max_isGreatest (fun q => q.x) p ps).1
    simp only [boundingRect, ← e1, ← e2, hc q hq, hc q2 hq2, sub_self, zero_add]
    decide

theorem height_one_of_same_y {hull : List Point} (hne : hull ≠ []) {c : Int}
    (hc : ∀ p ∈ hull, p.y = c) : (boundingRect hull).height = 1 := by
  cases hull with
  | nil => exact absurd rfl hne
  | cons p ps =>
    obtain ⟨q, hq, e1⟩ := (foldl_min_isLeast (fun q => q.y) p ps).1
    obtain ⟨q2, hq2, e2⟩ := (foldl_max_isGreatest (fun q => q.y) p ps).1
    simp only [boundingRect, ← e1, ← e2, hc q hq, hc q2 hq2, sub_self, zero_add]
    decide

theorem collinear_slantedPair : Collinear slantedPair :=
  ⟨2, -1, 0, Or.inl (by decide), by
    intro p hp
    simp only [slantedPair, List.mem_cons, List.mem_singleton, List.not_mem_nil, or_false] at hp
    rcases hp with rfl | rfl <;> decide⟩

/-- C10, as the code behaves: for every hull of `int` points with fewer than 3 points or with
all points on one line, Stage 1 rejects it when it is empty or its points share one `x` or one
`y` coordinate; a hull that passes Stage 1 all the same is rejected by the Stage-2 pointing-up
check. -/
theorem zero_area_hull_rejected_by_stage1_or_stage2 (hull : List Point) (hv : validHull hull)
    (hd : hull.length < 3 ∨ Collinear hull) :
    (hull = [] ∨ (∃ c, ∀ p ∈ hull, p.x = c) ∨ (∃ c, ∀ p ∈ hull, p.y = c) →
        failsGrossDimensionalCheck hull = true) ∧
      (failsGrossDimensionalCheck hull = false →
        isPointingUp hull (yCenter hull) = some false) := by
  constructor
  · intro h
    by_cases hne : hull = []
    · rw [hne]; exact failsGross_nil
    · rcases h with h | ⟨c, hc⟩ | ⟨c, hc⟩
      · exact absurd h hne
      · exact failsGross_of_width_one (width_one_of_same_x hne hc)
      · exact failsGross_of_height_one (height_one_of_same_y hne hc)
  · intro hp
    rcases hd with h | h
    · exact collinear_fails_stage2 hv hp (collinear_of_length_le_two (by omega))
    · exact collinear_fails_stage2 hv hp h

/-- C10 amended, at the two-point hull (0,0), (10,20): it passes Stage 1 and Stage 2 rejects
it. -/
theorem zero_area_hull_rejected_by_stage1_or_stage2_witness :
    validHull slantedPair ∧ (slantedPair.length < 3 ∨ Collinear slantedPair) ∧
      failsGrossDimensionalCheck slantedPair = false ∧
      isPointingUp slantedPair (yCenter slantedPair) = some false :=
  ⟨by decide, Or.inl (by decide), failsGross_slantedPair,
    (zero_area_hull_rejected_by_stage1_or_stage2 slantedPair (by decide)
      (Or.inl (by decide))).2 failsGross_slantedPair⟩

/-- C10 as stated fails: the two-point hull (0,0), (10,20) has fewer than 3 points, lies on the
line `2x - y = 0`, and passes Stage 1 (bounding box 11x21, area 231, width/height below 0.8). -/
theorem slantedPair_passes_stage1 :
    validHull slantedPair ∧ slantedPair.length < 3 ∧ Collinear slantedPair ∧
      boundingRect slantedPair = ⟨0, 0, 11, 21⟩ ∧
      failsGrossDimensionalCheck slantedPair = false :=
  ⟨by decide, by decide, collinear_slantedPair, by decide, failsGross_slantedPair⟩

/-! ## The center of mass -/

theorem divDouble_zero_not_finite (fp : DoubleArith) (a : ℚ) (q : ℚ) :
    divDouble fp a 0 ≠ DoubleValue.finite q := by
  unfold divDouble
  simp only [if_true]
  split
  · intro h; cases h
  · split <;> (intro h; cases h)

theorem castToInt_of_zero_denominator (fp : DoubleArith) (a : ℚ) :
    castToInt fp (divDouble fp a 0) = fp.indefinite := by
  cases h : divDouble fp a 0 with
  | finite q => exact absurd h (divDouble_zero_not_finite fp a q)
  | posInf => rfl
  | negInf => rfl
  | nan => rfl

theorem divDouble_of_ne_zero (fp : DoubleArith) (a : ℚ) {b : ℚ} (hb : b ≠ 0) :
    divDouble fp a b = DoubleValue.finite (fp.round (a / b)) := by
  simp [divDouble, hb]

/-- C8, as the code behaves: `drawGreenDotAtConeCenter` does not test `m00`.  For every point
sequence it forms `m10 / m00` and `m01 / m00` and draws exactly one dot, at the `(int)` casts of
the two quotients.  When `m00` is not 0 the quotients are the rounded finite quotients; when
`m00` is 0 the division by zero is performed, neither quotient is a finite number, and the dot
is still drawn, at the value the cast gives for such a quotient. -/
theorem centroid_division_is_unguarded (cvMoments : List Point → Moments) (fp : DoubleArith)
    (trafficCone : List Point) :
    drawGreenDotAtConeCenter cvMoments fp trafficCone =
        [⟨castToInt fp (divDouble fp (cvMoments trafficCone).m10 (cvMoments trafficCone).m00),
          castToInt fp (divDouble fp (cvMoments trafficCone).m01 (cvMoments trafficCone).m00)⟩] ∧
      ((cvMoments trafficCone).m00 ≠ 0 →
        divDouble fp (cvMoments trafficCone).m10 (cvMoments trafficCone).m00 =
            DoubleValue.finite
              (fp.round ((cvMoments trafficCone).m10 / (cvMoments trafficCone).m00)) ∧
          divDouble fp (cvMoments trafficCone).m01 (cvMoments trafficCone).m00 =
            DoubleValue.finite
              (fp.round ((cvMoments trafficCone).m01 / (cvMoments trafficCone).m00))) ∧
      ((cvMoments trafficCone).m00 = 0 →
        (∀ q, divDouble fp (cvMoments trafficCone).m10 (cvMoments trafficCone).m00 ≠
            DoubleValue.finite q) ∧
          (∀ q, divDouble fp (cvMoments trafficCone).m01 (cvMoments trafficCone).m00 ≠
            DoubleValue.finite q) ∧
          drawGreenDotAtConeCenter cvMoments fp trafficCone =
            [⟨fp.indefinite, fp.indefinite⟩]) := by
  refine ⟨rfl, fun hne => ⟨divDouble_of_ne_zero fp _ hne, divDouble_of_ne_zero fp _ hne⟩, ?_⟩
  intro h0
  rw [h0]
  refine ⟨divDouble_zero_not_finite fp _, divDouble_zero_not_finite fp _, ?_⟩
  simp only [drawGreenDotAtConeCenter, h0, castToInt_of_zero_denominator]

theorem contourMoments_wideCone : contourMoments wideCone = ⟨90000, 13500000, 36000000⟩ := by
  simp [contourMoments, wideCone, greenSums]
  norm_num

theorem contourMoments_slantedPair : contourMoments slantedPair = ⟨0, 0, 0⟩ := by
  simp [contourMoments, slantedPair, greenSums]

theorem castToInt_x86Exact_natCast (n : Nat) (hn : (n : Int) ≤ INT_MAX) :
    castToInt x86Exact (DoubleValue.finite ((n : ℚ))) = (n : Int) := by
  have h0 : INT_MIN ≤ (n : Int) := by
    unfold INT_MIN
    omega
  simp [castToInt, h0, hn]

/-- C8 amended, at the triangle (150,0), (0,600), (300,600), whose `m00` is 90000: the
quotients are 150 and 400 and the dot is drawn at (150, 400); and at the two-point sequence
(0,0), (10,20), whose `m00` is 0: the dot is drawn at the value of the cast. -/
theorem centroid_division_is_unguarded_witness :
    (contourMoments wideCone).m00 ≠ 0 ∧
      divDouble x86Exact (contourMoments wideCone).m10 (contourMoments wideCone).m00 =
        DoubleValue.finite 150 ∧
      divDouble x86Exact (contourMoments wideCone).m01 (contourMoments wideCone).m00 =
        DoubleValue.finite 400 ∧
      drawGreenDotAtConeCenter contourMoments x86Exact wideCone = [⟨150, 400⟩] ∧
      (contourMoments slantedPair).m00 = 0 ∧
      drawGreenDotAtConeCenter contourMoments x86Exact slantedPair = [⟨INT_MIN, INT_MIN⟩] := by
  have hne : (contourMoments wideCone).m00 ≠ 0 := by
    rw [contourMoments_wideCone]; norm_num
  have h0 : (contourMoments slantedPair).m00 = 0 := by
    rw [contourMoments_slantedPair]
  have hw := centroid_division_is_unguarded contourMoments x86Exact wideCone
  have hs := centroid_division_is_unguarded contourMoments x86Exact slantedPair
  have hx : divDouble x86Exact (contourMoments wideCone).m10 (contourMoments wideCone).m00 =
      DoubleValue.finite 150 := by
    rw [(hw.2.1 hne).1, contourMoments_wideCone]
    simp only [x86Exact]
    norm_num
  have hy : divDouble x86Exact (contourMoments wideCone).m01 (contourMoments wideCone).m00 =
      DoubleValue.finite 400 := by
    rw [(hw.2.1 hne).2, contourMoments_wideCone]
    simp only [x86Exact]
    norm_num
  refine ⟨hne, hx, hy, ?_, h0, (hs.2.2 h0).2.2⟩
  rw [hw.1, hx, hy]
  have e1 := castToInt_x86Exact_natCast 150 (by decide)
  have e2 := castToInt_x86Exact_natCast 400 (by decide)
  simp only [Nat.cast_ofNat] at e1 e2
  rw [e1, e2]

/-- C8 as stated fails: for the empty point sequence `m00` is 0, and the function still forms
`m10 / m00` and `m01 / m00`, both `0 / 0 = NaN`, and still draws a dot, at the position the cast
derives from those quotients. -/
theorem centroid_divides_by_zero :
    (contourMoments []).m00 = 0 ∧
      divDouble x86Exact (contourMoments []).m10 (contourMoments []).m00 = DoubleValue.nan ∧
      divDouble x86Exact (contourMoments []).m01 (contourMoments []).m00 = DoubleValue.nan ∧
      drawGreenDotAtConeCenter contourMoments x86Exact [] = [⟨INT_MIN, INT_MIN⟩] ∧
      (drawGreenDotAtConeCenter contourMoments x86Exact []).length = 1 := by
  have h1 : contourMoments [] = ⟨0, 0, 0⟩ := rfl
  have hd : divDouble x86Exact 0 0 = DoubleValue.nan := by
    simp [divDouble]
  refine ⟨by rw [h1], by rw [h1]; exact hd, by rw [h1]; exact hd, ?_, rfl⟩
  simp only [drawGreenDotAtConeCenter, h1, hd]
  rfl

/-! ## The count report -/

/-- C9. The message is determined by the number `n` of cones: "no traffic cones were found"
for 0, "1 traffic cone was found" for 1, the decimal digits of `n` followed by
" traffic cones were found" for every `n > 1`; exactly one message is written for every `n`. -/
theorem count_message_by_number (n : Nat) :
    (n = 0 → countMessages n = ["no traffic cones were found"]) ∧
      (n = 1 → countMessages n = ["1 traffic cone was found"]) ∧
      (1 < n → countMessages n = [(Nat.toDigits 10 n).asString ++ " traffic cones were found"]) ∧
      (countMessages n).length = 1 := by
  refine ⟨?_, ?_, ?_, ?_⟩
  · rintro rfl; rfl
  · rintro rfl; rfl
  · intro h
    have h0 : ¬ n ≤ 0 := by omega
    have h1 : ¬ n = 1 := by omega
    simp only [countMessages, h0, h1, h, if_true, if_false]
    rfl
  · unfold countMessages
    split
    · rfl
    · split
      · rfl
      · split
        · rfl
        · omega

/-- C9 at 12 cones. -/
theorem count_message_by_number_witness :
    (1 : Nat) < 12 ∧ countMessages 12 = ["12 traffic cones were found"] :=
  ⟨by decide, (count_message_by_number 12).2.2.1 (by decide)⟩

end TrafficCone
